import Mathlib

/-!
Verification of the price-monitor script (`hs.py`): shallow embedding of its
pure cores — Sina quote parsing, convertible-bond average aggregation, target
ratio computation, ratio sorting, daily notification de-duplication, the JSON
notification log, and HTML table rendering — together with theorems settling
the specification's claims.

Python strings are modelled as `List Char`, prices as `ℚ`.  Network and file
I/O are modelled by passing the fetched response / file content explicitly.
-/

namespace HS

/-- Python strings are modelled as lists of characters. -/
abbrev PyStr := List Char

/-- Numeric value of a list of ASCII digits, most significant first
(the usual decimal reading, as produced by Python's `int`/`float` parsing). -/
def digitsVal (l : PyStr) : ℕ := l.foldl (fun a c => 10 * a + (c.toNat - 48)) 0

/-- Python `s.replace('.', '', 1)`: the string with its first `'.'` removed. -/
def removeFirstDot (s : PyStr) : PyStr :=
  s.takeWhile (fun c => c ≠ '.') ++ (s.dropWhile (fun c => c ≠ '.')).drop 1

/-- Python `s and s.replace('.', '', 1).isdigit()` — the validity test the
script applies to a price field before calling `float` on it. -/
def pyDigitCheck (s : PyStr) : Bool :=
  (!s.isEmpty) && (!(removeFirstDot s).isEmpty) && (removeFirstDot s).all Char.isDigit

/-- Python `float(s)` for an unsigned decimal literal `digits [. digits]`
(with at least one digit); `none` models `float` raising `ValueError`. -/
def pyFloatCore (s : PyStr) : Option ℚ :=
  if (s.all fun c => c.isDigit || c == '.') && decide (s.count '.' ≤ 1) && s.any Char.isDigit
  then
    some ((digitsVal (s.takeWhile (fun c => c ≠ '.')) : ℚ) +
      (digitsVal ((s.dropWhile (fun c => c ≠ '.')).drop 1) : ℚ) /
        10 ^ ((s.dropWhile (fun c => c ≠ '.')).drop 1).length)
  else none

/-- Python `float(s)`: optional sign followed by an unsigned decimal literal.
(Exponents, `inf`/`nan` and surrounding whitespace are not modelled; the
script only applies `float` to comma-separated quote fields.) -/
def pyFloat (s : PyStr) : Option ℚ :=
  match s with
  | [] => pyFloatCore []
  | c :: rest =>
    if c = '-' then (pyFloatCore rest).map (fun q => -q)
    else if c = '+' then pyFloatCore rest
    else pyFloatCore (c :: rest)

/-- Python `float(s)` at a call site where the script has already validated
`s` (so no exception can occur). -/
def pyFloatD (s : PyStr) : ℚ := (pyFloat s).getD 0

/-- Python `s.split(sep)` for a one-character separator. -/
def splitOnChar (sep : Char) : PyStr → List PyStr
  | [] => [[]]
  | c :: rest =>
    if c = sep then [] :: splitOnChar sep rest
    else
      match splitOnChar sep rest with
      | [] => [[c]]
      | h :: t => (c :: h) :: t

/-- Helper: prepend a character to the first piece of a split. -/
def consHead (c : Char) : List PyStr → List PyStr
  | [] => [[c]]
  | h :: t => (c :: h) :: t

/-- Python `s.split('=\x22')` (the two-character separator `="` used to cut a
Sina response line at the start of its quoted payload). -/
def splitOnEqQuote : PyStr → List PyStr
  | [] => [[]]
  | '=' :: '"' :: rest => [] :: splitOnEqQuote rest
  | c :: rest => consHead c (splitOnEqQuote rest)

/-- Python `'=\x22' in s`. -/
def containsEqQuote : PyStr → Bool
  | [] => false
  | '=' :: '"' :: _ => true
  | _ :: rest => containsEqQuote rest

/-- Python `s.strip(chars)`: remove the given characters from both ends. -/
def stripChars (cs : List Char) (s : PyStr) : PyStr :=
  ((s.dropWhile (fun c => cs.contains c)).reverse.dropWhile (fun c => cs.contains c)).reverse

/-- Python whitespace characters (ASCII), as recognised by `str.strip()`. -/
def pyWs (c : Char) : Bool :=
  c == ' ' || c == '\t' || c == '\n' || c == '\r' || c == '\x0b' || c == '\x0c'

/-- Python `s.strip()` (no argument: strip whitespace). -/
def stripWs (s : PyStr) : PyStr :=
  ((s.dropWhile pyWs).reverse.dropWhile pyWs).reverse

/-- Decimal digit characters of a natural number (Python `str(n)` for `n ≥ 0`). -/
def natToStr (n : ℕ) : PyStr := Nat.toDigits 10 n

/-! ## Quote results and the Sina quote fetcher (`get_data_sina`) -/

/-- The record a fetcher returns: either a price record (the dict with
`current_price` / `open_price` / `prev_close` and, for the bond average,
`count`), or an error dict `{"error": kind, "detail": detail}`.  Exception
message texts (`str(e)`) are not modelled and appear as an empty detail. -/
inductive QuoteResult where
  | ok (current_price open_price prev_close : Option ℚ) (count : Option ℕ)
  | err (kind detail : PyStr)
deriving DecidableEq

/-- Python `"error" in api_data`. -/
def QuoteResult.isErr : QuoteResult → Bool
  | .ok _ _ _ _ => false
  | .err _ _ => true

/-- Python `api_data.get("current_price")`. -/
def QuoteResult.current : QuoteResult → Option ℚ
  | .ok c _ _ _ => c
  | .err _ _ => none

/-- Python `api_data.get("count")` (`none` when the key is absent). -/
def QuoteResult.countField : QuoteResult → Option ℕ
  | .ok _ _ _ n => n
  | .err _ _ => none

/-- Python `api_data.get("detail")`. -/
def QuoteResult.detailField : QuoteResult → Option PyStr
  | .ok _ _ _ _ => none
  | .err _ d => some d

/-- An HTTP response as seen by the script: status code and decoded text. -/
structure HttpResp where
  status_code : ℕ
  text : PyStr
deriving DecidableEq

/-- The comma-separated fields of the quoted payload of a Sina response
(`data.split('=\x22')[1].strip('\x22;').split(',')` in the script). -/
def sinaParts (data : PyStr) : List PyStr :=
  splitOnChar ',' (stripChars ['"', ';'] ((splitOnEqQuote data).getD 1 []))

/-- Embedding of `get_data_sina` (hs.py:116-152): retrieval of one quote from the Sina
line-oriented endpoint, modelled on the response the network layer delivered.
Network exceptions are not modelled (they yield `{"error": "网络错误"}`
before any parsing happens); `float` raising `ValueError` on the unvalidated
fields `parts[1]`/`parts[2]` is modelled by the `"未知错误"` branch. -/
def get_data_sina (stock_api_code : PyStr) (resp : HttpResp) : QuoteResult :=
  if resp.status_code ≠ 200 ∨ containsEqQuote resp.text = false then
    .err "获取失败".toList ("HTTP状态码: ".toList ++ natToStr resp.status_code)
  else
    if (sinaParts resp.text).length < 4 then
      if "fx_".toList.isPrefixOf stock_api_code ∧ 4 ≤ (sinaParts resp.text).length ∧
          pyDigitCheck ((sinaParts resp.text).getD 3 []) = true then
        .ok (some (pyFloatD ((sinaParts resp.text).getD 3 [])))
          (if 0 < (sinaParts resp.text).length ∧
              pyDigitCheck ((sinaParts resp.text).getD 0 []) = true then
            some (pyFloatD ((sinaParts resp.text).getD 0 [])) else none)
          (if 1 < (sinaParts resp.text).length ∧
              pyDigitCheck ((sinaParts resp.text).getD 1 []) = true then
            some (pyFloatD ((sinaParts resp.text).getD 1 [])) else none)
          none
      else
        .err "解析失败".toList "数据项不足".toList
    else
      if (sinaParts resp.text).getD 3 [] ≠ [] ∧
          pyDigitCheck ((sinaParts resp.text).getD 3 []) = true then
        match pyFloat ((sinaParts resp.text).getD 1 []) with
        | none => .err "未知错误".toList []
        | some op =>
          match pyFloat ((sinaParts resp.text).getD 2 []) with
          | none => .err "未知错误".toList []
          | some pc =>
            .ok (some (pyFloatD ((sinaParts resp.text).getD 3 []))) (some op) (some pc) none
      else
        .err "解析失败".toList "价格数据无效".toList

/-- Variant of `get_data_sina` with the currency-pair fallback branch (hs.py:133-138)
removed: used to state that this branch is dead code (claim C10). -/
def get_data_sina_noFallback (stock_api_code : PyStr) (resp : HttpResp) : QuoteResult :=
  if resp.status_code ≠ 200 ∨ containsEqQuote resp.text = false then
    .err "获取失败".toList ("HTTP状态码: ".toList ++ natToStr resp.status_code)
  else
    if (sinaParts resp.text).length < 4 then
      .err "解析失败".toList "数据项不足".toList
    else
      if (sinaParts resp.text).getD 3 [] ≠ [] ∧
          pyDigitCheck ((sinaParts resp.text).getD 3 []) = true then
        match pyFloat ((sinaParts resp.text).getD 1 []) with
        | none => .err "未知错误".toList []
        | some op =>
          match pyFloat ((sinaParts resp.text).getD 2 []) with
          | none => .err "未知错误".toList []
          | some pc =>
            .ok (some (pyFloatD ((sinaParts resp.text).getD 3 []))) (some op) (some pc) none
      else
        .err "解析失败".toList "价格数据无效".toList

/-! ## Fixed-point formatting (Python `f"{x:.prec f}"`)

Used by the script for detail strings and the HTML table.  Ties are rounded
like Mathlib's `round` (half away from zero upward); the script formats
binary floats, whose tie behaviour on exact halves is not observable in any
claim, so exact decimal rounding is used here. -/

/-- Left-pad a digit string with zeros to width `w`. -/
def padZeros (w : ℕ) (s : PyStr) : PyStr := List.replicate (w - s.length) '0' ++ s

/-- Python `f"{q:.pf}"` with `p = prec` fractional digits. -/
def fmtFixed (q : ℚ) (prec : ℕ) : PyStr :=
  let scaled : ℤ := round (q * 10 ^ prec)
  let sign : PyStr := if scaled < 0 then ['-'] else []
  let m : ℕ := scaled.natAbs
  sign ++ natToStr (m / 10 ^ prec) ++
    (if prec = 0 then [] else '.' :: padZeros prec (natToStr (m % 10 ^ prec)))

/-! ## Convertible-bond average (`get_cb_avg_price_from_list`) -/

/-- hs.py:13 — ceiling above which a convertible-bond price is discarded. -/
def MAX_CB_PRICE : ℚ := 1000

/-- Model of `re.search(r'="(.+?)"', line)` applied from one start position: the lazy
capture after a leading `="`, i.e. the characters before the first following
`'"'`, provided there is at least one and no newline intervenes. -/
def lazyCapture : PyStr → Option PyStr
  | [] => none
  | c0 :: tail =>
    if tail.any (fun c => c == '"') && (c0 :: tail.takeWhile (fun c => c ≠ '"')).all (fun c => c ≠ '\n')
    then some (c0 :: tail.takeWhile (fun c => c ≠ '"'))
    else none

/-- Model of `re.search(r'="(.+?)"', line).group(1)`: scan start positions left to
right, capture at the first position where `="` is followed by a non-empty
newline-free run ending at a `'"'`. -/
def reSearchEqQuote : PyStr → Option PyStr
  | [] => none
  | c :: rest =>
    if c = '=' then
      match rest with
      | '"' :: tail =>
        match lazyCapture tail with
        | some cap => some cap
        | none => reSearchEqQuote rest
      | _ => reSearchEqQuote rest
    else reSearchEqQuote rest

/-- The price `float(parts[3])` of one response line, if the line passes
every guard of hs.py:206-216 except the price-range filter. -/
def cbLinePrice (line : PyStr) : Option ℚ :=
  match reSearchEqQuote line with
  | none => none
  | some cap =>
    let parts := splitOnChar ',' cap
    if 3 < parts.length then
      if pyDigitCheck (parts.getD 3 []) = true then some (pyFloatD (parts.getD 3 []))
      else none
    else none

/-- The response lines the script iterates over: those starting with
`var hq_str_` (hs.py:204). -/
def cbValidLines (data : PyStr) : List PyStr :=
  (splitOnChar '\n' data).filter (fun l => "var hq_str_".toList.isPrefixOf l)

/-- All bond prices parsed out of the batch response, before the
`0 < p < MAX_CB_PRICE` filter. -/
def cbParsedPrices (data : PyStr) : List ℚ :=
  (cbValidLines data).filterMap cbLinePrice

/-- The `prices` list of hs.py:205-216: parsed prices that also pass the
range filter `0 < p < MAX_CB_PRICE`. -/
def cbPrices (data : PyStr) : List ℚ :=
  (cbValidLines data).filterMap (fun line =>
    match cbLinePrice line with
    | none => none
    | some p => if 0 < p ∧ p < MAX_CB_PRICE then some p else none)

/-- Embedding of `get_cb_avg_price_from_list` (hs.py:187-229): batch-fetch bond prices and
average the ones inside `(0, MAX_CB_PRICE)`; modelled on the response the
network layer delivered. -/
def get_cb_avg_price_from_list (codes_list : List PyStr) (resp : HttpResp) : QuoteResult :=
  if codes_list.isEmpty then
    .err "计算失败".toList "可转债代码列表为空，无法进行计算。".toList
  else if resp.status_code ≠ 200 ∨ (stripWs resp.text).isEmpty then
    .err "获取失败".toList ("新浪API状态码: ".toList ++ natToStr resp.status_code)
  else
    if (cbPrices resp.text).isEmpty then
      .err "计算失败".toList
        ("已获取 ".toList ++ natToStr codes_list.length ++
          " 个代码，但新浪未返回有效或低于 ".toList ++ fmtFixed MAX_CB_PRICE 2 ++
          " 的价格数据。".toList)
    else
      .ok (some ((cbPrices resp.text).sum / (cbPrices resp.text).length)) none none
        (some (cbPrices resp.text).length)

/-! ## Target configuration and the per-target evaluation pipeline (main) -/

/-- The `type` field of a target configuration. -/
inductive TType where
  | SINA
  | CB_AVG
deriving DecidableEq

/-- One entry of `ALL_TARGET_CONFIGS` (hs.py:29-65), keyed by `code`. -/
structure TargetConfig where
  code : PyStr
  name : PyStr
  ttype : TType
  api_code : Option PyStr
  target_price : ℚ
  note : PyStr
deriving DecidableEq

/-- The concrete `ALL_TARGET_CONFIGS` dict of hs.py:29-65, in insertion order. -/
def ALL_TARGET_CONFIGS : List TargetConfig :=
  [⟨"SSEC".toList, "上证指数".toList, .SINA, some "sh000001".toList, 3000, "/暂无".toList⟩,
   ⟨"399975".toList, "证券公司指数".toList, .SINA, some "sz399975".toList, 700, "/暂无".toList⟩,
   ⟨"USD/CNY".toList, "美元兑人民币".toList, .SINA, some "fx_susdcny".toList, 34 / 5, "/暂无".toList⟩,
   ⟨"CB/AVG".toList, "可转债平均价格".toList, .CB_AVG, none, 115, "/暂无".toList⟩]

/-- The per-target record assembled by the main loop (hs.py:512-524) and
extended with `target_ratio` in step 3 (modelled by the `ratio_value`
field; `none` is Python `None`). -/
structure StockItem where
  name : PyStr
  code : PyStr
  target_price : ℚ
  note : PyStr
  is_error : Bool
  current_price : Option ℚ
  open_price : Option ℚ
  prev_close : Option ℚ
  count_field : Option ℕ
  err_kind : Option PyStr
  err_detail : Option PyStr
  ratio_value : Option ℚ
deriving DecidableEq

/-- Step 2 of main (hs.py:495-526): merge a target's static configuration
with its fetched data (`ratio_value` is set later, starting out as `None`). -/
def assembleItem (cfg : TargetConfig) (api_data : QuoteResult) : StockItem :=
  { name :=
      if cfg.ttype = .CB_AVG ∧ (api_data.countField).isSome ∧ api_data.isErr = false then
        "可转债平均价格 (基于".toList ++ natToStr ((api_data.countField).getD 0) ++
          "个代码计算)".toList
      else cfg.name
    code := cfg.code
    target_price := cfg.target_price
    note := cfg.note
    is_error := api_data.isErr
    current_price := api_data.current
    open_price := match api_data with | .ok _ o _ _ => o | .err _ _ => none
    prev_close := match api_data with | .ok _ _ p _ => p | .err _ _ => none
    count_field := api_data.countField
    err_kind := match api_data with | .ok _ _ _ _ => none | .err k _ => some k
    err_detail := api_data.detailField
    ratio_value := none }

/-- Step 3 of main (hs.py:531-537): `target_ratio = (current − target) / current`
when the item is error-free with a non-null, non-zero current price,
`None` otherwise. -/
def applyRatio (item : StockItem) : StockItem :=
  match item.current_price with
  | some c =>
    if item.is_error = false ∧ c ≠ 0 then
      { item with ratio_value := some ((c - item.target_price) / c) }
    else
      { item with ratio_value := none }
  | none => { item with ratio_value := none }

/-- Step 1+2 of main: the data source for one target — `SINA` targets call
`get_data_sina`, the `CB_AVG` target uses the precomputed bond-average
record.  `sinaResp` is the response the network delivered for a given
api code; `cbData` the precomputed record. -/
def runFetch (sinaResp : PyStr → HttpResp) (cbData : QuoteResult)
    (cfg : TargetConfig) : QuoteResult :=
  match cfg.ttype with
  | .SINA => get_data_sina (cfg.api_code.getD []) (sinaResp (cfg.api_code.getD []))
  | .CB_AVG => cbData

/-- hs.py:483-491: the precomputed `cb_avg_data_for_display`, from either a
failed code-list fetch (`Except.error msg`) or the batch average. -/
def cbPre (codesOutcome : Except PyStr (List PyStr)) (cbResp : HttpResp) : QuoteResult :=
  match codesOutcome with
  | .error msg => .err "代码列表获取失败".toList msg
  | .ok codes => get_cb_avg_price_from_list codes cbResp

/-- Steps 2-3 of main over a list of configured targets with an abstract
per-target fetch function. -/
def evalAll (configs : List TargetConfig) (fetch : TargetConfig → QuoteResult) :
    List StockItem :=
  (configs.map (fun c => assembleItem c (fetch c))).map applyRatio

/-- The complete evaluation phase of one run (fetch → assemble → ratio). -/
def runEval (configs : List TargetConfig) (sinaResp : PyStr → HttpResp)
    (cbData : QuoteResult) : List StockItem :=
  evalAll configs (runFetch sinaResp cbData)

/-! ## Sorting by target ratio (hs.py:539-540)

`all_stock_data.sort(key=lambda x: x['target_ratio'] if x['target_ratio'] is
not None else float('inf'))` — a stable sort, ascending, with `None` keys
treated as `+∞`.  Python's Timsort is modelled by insertion sort, which
computes the same list: a stable sort of a list under a total preorder is
unique. -/

/-- The sort key order: `none` plays `float('inf')`. -/
def keyLE : Option ℚ → Option ℚ → Prop
  | _, none => True
  | none, some _ => False
  | some a, some b => a ≤ b

instance : DecidableRel keyLE := by
  intro a b
  cases a <;> cases b <;> simp only [keyLE] <;> infer_instance

/-- Comparison of two items by their ratio keys. -/
def itemLE (x y : StockItem) : Prop := keyLE x.ratio_value y.ratio_value

instance : DecidableRel itemLE := by
  intro x y
  unfold itemLE
  infer_instance

instance : IsTotal StockItem itemLE :=
  ⟨fun x y => by
    have h : ∀ a b : Option ℚ, keyLE a b ∨ keyLE b a := by
      intro a b
      cases a <;> cases b <;> simp [keyLE] <;> exact le_total _ _
    exact h _ _⟩

instance : IsTrans StockItem itemLE :=
  ⟨fun u w z h1 h2 => by
    have h : ∀ a b c : Option ℚ, keyLE a b → keyLE b c → keyLE a c := by
      intro a b c ha hb
      cases a <;> cases b <;> cases c <;> simp_all [keyLE]
      exact le_trans ha hb
    exact h _ _ _ h1 h2⟩

instance : IsRefl StockItem itemLE :=
  ⟨fun x => by cases h : x.ratio_value <;> simp [itemLE, keyLE, h]⟩

/-- The sort call `all_stock_data.sort(...)` (hs.py:540). -/
def sortStep (l : List StockItem) : List StockItem := l.insertionSort itemLE

/-! ## Notification (hs.py:543-587) -/

/-- hs.py:16 — tolerance on `|target_ratio|` for triggering a notification. -/
def NOTIFICATION_TOLERANCE : ℚ := 5 / 1000

/-- The notification log: a Python dict from target code to ISO date string,
modelled as an insertion-ordered association list without duplicate keys. -/
abbrev LogMap := List (PyStr × PyStr)

/-- Python `d.get(k)`. -/
def dictLookup (k : PyStr) : LogMap → Option PyStr
  | [] => none
  | (k', v) :: rest => if k' = k then some v else dictLookup k rest

/-- Python `d[k] = v`: replace in place if present, else append. -/
def dictInsert (k v : PyStr) : LogMap → LogMap
  | [] => [(k, v)]
  | (k', v') :: rest =>
    if k' = k then (k', v) :: rest else (k', v') :: dictInsert k v rest

/-- The in-memory state of the notification loop. -/
structure NotifyState where
  log : LogMap
  log_updated : Bool
deriving DecidableEq

/-- One iteration of the notification loop (hs.py:551-584) for one item.
`push c` is the outcome `send_serverchan_notification(...)` would report for
target code `c`.  Returns the new state and whether the push call was
invoked at all. -/
def notifyStep (today : PyStr) (push : PyStr → Bool) (st : NotifyState)
    (item : StockItem) : NotifyState × Bool :=
  match item.ratio_value with
  | none => (st, false)
  | some r =>
    if item.is_error = true then (st, false)
    else
      if |r| ≤ NOTIFICATION_TOLERANCE ∧ ¬ dictLookup item.code st.log = some today then
        if push item.code then
          (⟨dictInsert item.code today st.log, true⟩, true)
        else
          (st, true)
      else (st, false)

/-- The whole notification loop over the (sorted) item list, starting from
the loaded log with `log_updated = False` (hs.py:548-584). -/
def notifyRun (today : PyStr) (push : PyStr → Bool) (items : List StockItem)
    (log0 : LogMap) : NotifyState :=
  items.foldl (fun st item => (notifyStep today push st item).1) ⟨log0, false⟩

/-- hs.py:586-587: `save_notification_log` is called iff `log_updated`. -/
def saveCalled (today : PyStr) (push : PyStr → Bool) (items : List StockItem)
    (log0 : LogMap) : Bool :=
  (notifyRun today push items log0).log_updated

/-! ## HTML table rendering (`create_html_content`, hs.py:251-320)

Only the data-table rows are modelled (the surrounding page template is a
constant string).  A `none` row models the `TypeError` the real code would
raise when formatting a `None` price in a non-error row; the pipeline never
produces such an item (see `evalAll_wellFormed`). -/

/-- The error text placed in the price cell of a failed row (hs.py:280). -/
def errorCellText (item : StockItem) : PyStr :=
  "数据错误: ".toList ++ (item.err_detail).getD "未知错误".toList

/-- The `price_display` and `price_color` cells of one row (hs.py:272-292);
`none` models the uncaught `TypeError` on a `None` price. -/
def priceCell (item : StockItem) : Option (PyStr × PyStr) :=
  if item.is_error = true then
    some (errorCellText item, "#e74c3c".toList)
  else
    match item.current_price with
    | none => none
    | some c =>
      some ((if item.code = "USD/CNY".toList then fmtFixed c 4 else fmtFixed c 3),
        (if item.target_price ≤ c then "#e67e22".toList else "#27ae60".toList))

/-- The `ratio_display` and `ratio_color` cells of one row (hs.py:274-301). -/
def ratioCell (item : StockItem) : PyStr × PyStr :=
  if item.is_error = true then ("N/A".toList, "#7f8c8d".toList)
  else
    match item.ratio_value with
    | none => ("N/A".toList, "#7f8c8d".toList)
    | some r =>
      (fmtFixed (r * 100) 2 ++ ['%'],
        if r < 0 then "#27ae60".toList
        else if 0 < r then "#e67e22".toList
        else "#3498db".toList)

/-- The `<tr>` string of one data row (hs.py:302-311). -/
def rowOf (item : StockItem) : Option PyStr :=
  match priceCell item with
  | none => none
  | some (price_display, price_color) =>
    some ("\n        <tr>\n            <td>".toList ++ item.name ++
      "</td>\n            <td>".toList ++ item.code ++
      "</td>\n            <td>".toList ++ fmtFixed item.target_price 4 ++
      "</td>\n            <td style=\"color: ".toList ++ price_color ++
      "; font-weight: bold;\">".toList ++ price_display ++
      "</td>\n            <td style=\"color: ".toList ++ (ratioCell item).2 ++
      "; font-weight: bold;\">".toList ++ (ratioCell item).1 ++
      "</td>\n            <td style=\"text-align: left;\">".toList ++ item.note ++
      "</td>\n        </tr>\n        ".toList)

/-- The header row appended first (hs.py:262-271). -/
def headerRow : PyStr :=
  ("\n        <tr>\n            <th>标的名称</th>\n            <th>证券代码</th>" ++
    "\n            <th>目标价位</th>\n            <th>当前价位</th>" ++
    "\n            <th>目标比例</th> \n            <th>备注</th>\n        </tr>\n    ").toList

/-- The `table_rows` list of `create_html_content`: the header plus one row
per item, in order; `none` if any row raises. -/
def tableRows (l : List StockItem) : Option (List PyStr) :=
  (l.mapM rowOf).map (fun rows => headerRow :: rows)

/-! ## The JSON notification log (`json.dump` / `json.load`)

Modelled from the spec and the Python standard library semantics the script
relies on: `json.dump(log, f, ensure_ascii=False, indent=4)` serialization
and strict `json.load` parsing of JSON texts (`NaN`/`Infinity` literals are
accepted as numbers, like CPython's default; surrogate `\uXXXX` pairing is
not modelled — the script's encoder never emits surrogates). -/

/-- A parsed JSON document.  Number tokens are kept as raw text: the script
never computes with numbers held in the log file. -/
inductive Json where
  | null
  | bool (b : Bool)
  | num (tok : PyStr)
  | str (s : PyStr)
  | arr (elems : List Json)
  | obj (members : List (PyStr × Json))

/-- JSON insignificant whitespace. -/
def jsonWsChar (c : Char) : Bool := c == ' ' || c == '\t' || c == '\n' || c == '\r'

/-- Skip insignificant whitespace. -/
def skipWs (s : PyStr) : PyStr := s.dropWhile jsonWsChar

/-- Lowercase hexadecimal digit for `n < 16`. -/
def hexDigitChar (n : ℕ) : Char :=
  if n < 10 then Char.ofNat (48 + n) else Char.ofNat (87 + n)

/-- Value of a hexadecimal digit character. -/
def hexVal (c : Char) : Option ℕ :=
  if '0' ≤ c ∧ c ≤ '9' then some (c.toNat - 48)
  else if 'a' ≤ c ∧ c ≤ 'f' then some (c.toNat - 87)
  else if 'A' ≤ c ∧ c ≤ 'F' then some (c.toNat - 55)
  else none

/-- How `json.dump(..., ensure_ascii=False)` escapes one character. -/
def escChar (c : Char) : PyStr :=
  if c = '\\' then ['\\', '\\']
  else if c = '"' then ['\\', '"']
  else if c = '\x08' then ['\\', 'b']
  else if c = '\x0c' then ['\\', 'f']
  else if c = '\n' then ['\\', 'n']
  else if c = '\r' then ['\\', 'r']
  else if c = '\t' then ['\\', 't']
  else if c.toNat < 32 then
    ['\\', 'u', '0', '0', hexDigitChar (c.toNat / 16), hexDigitChar (c.toNat % 16)]
  else [c]

/-- The escaped body of a serialized string. -/
def escBody (s : PyStr) : PyStr := s.foldr (fun c acc => escChar c ++ acc) []

/-- A serialized JSON string, quotes included. -/
def encodeStr (s : PyStr) : PyStr := '"' :: escBody s ++ ['"']

/-- Decode a one-character escape (`\u` is handled separately). -/
def escDecode (e : Char) : Option Char :=
  if e = '"' then some '"'
  else if e = '\\' then some '\\'
  else if e = '/' then some '/'
  else if e = 'b' then some '\x08'
  else if e = 'f' then some '\x0c'
  else if e = 'n' then some '\n'
  else if e = 'r' then some '\r'
  else if e = 't' then some '\t'
  else none

/-- Parse the body of a JSON string after its opening quote: the decoded
characters and the text after the closing quote.  Strict mode: raw control
characters are rejected. -/
def parseStringBody : PyStr → Option (PyStr × PyStr)
  | [] => none
  | c :: rest =>
    if c = '"' then some ([], rest)
    else if c = '\\' then
      match rest with
      | [] => none
      | e :: rest2 =>
        if e = 'u' then
          match rest2 with
          | h1 :: h2 :: h3 :: h4 :: rest3 =>
            match hexVal h1, hexVal h2, hexVal h3, hexVal h4 with
            | some a, some b, some c2, some d =>
              (parseStringBody rest3).map
                (fun p => (Char.ofNat (4096 * a + 256 * b + 16 * c2 + d) :: p.1, p.2))
            | _, _, _, _ => none
          | _ => none
        else
          match escDecode e with
          | some ec => (parseStringBody rest2).map (fun p => (ec :: p.1, p.2))
          | none => none
    else if c.toNat < 32 then none
    else (parseStringBody rest).map (fun p => (c :: p.1, p.2))

/-- Leading digit run of a string, with the remainder. -/
def digitSpan (s : PyStr) : PyStr × PyStr :=
  (s.takeWhile Char.isDigit, s.dropWhile Char.isDigit)

/-- JSON integer part: `0` or a nonzero digit followed by digits. -/
def parseIntPart : PyStr → Option (PyStr × PyStr)
  | [] => none
  | c :: rest =>
    if c = '0' then some (['0'], rest)
    else if c.isDigit then some (c :: (digitSpan rest).1, (digitSpan rest).2)
    else none

/-- JSON fraction part (optional): `.` followed by at least one digit. -/
def parseFracPart (s : PyStr) : Option (PyStr × PyStr) :=
  match s with
  | '.' :: rest =>
    if (digitSpan rest).1.isEmpty then none
    else some ('.' :: (digitSpan rest).1, (digitSpan rest).2)
  | _ => some ([], s)

/-- JSON exponent part (optional): `e`/`E`, optional sign, digits. -/
def parseExpPart (s : PyStr) : Option (PyStr × PyStr) :=
  match s with
  | c :: rest =>
    if c = 'e' ∨ c = 'E' then
      let signed : PyStr × PyStr :=
        match rest with
        | '+' :: r => (['+'], r)
        | '-' :: r => (['-'], r)
        | r => ([], r)
      if (digitSpan signed.2).1.isEmpty then none
      else some (c :: signed.1 ++ (digitSpan signed.2).1, (digitSpan signed.2).2)
    else some ([], c :: rest)
  | [] => some ([], [])

/-- A JSON number token: `-? int frac? exp?`. -/
def parseNumberToken (s : PyStr) : Option (PyStr × PyStr) :=
  let body : PyStr → Option (PyStr × PyStr) := fun t =>
    match parseIntPart t with
    | none => none
    | some (ip, r1) =>
      match parseFracPart r1 with
      | none => none
      | some (fp, r2) =>
        match parseExpPart r2 with
        | none => none
        | some (ep, r3) => some (ip ++ fp ++ ep, r3)
  match s with
  | '-' :: rest => (body rest).map (fun p => ('-' :: p.1, p.2))
  | _ => body s

mutual

/-- Parse one JSON value (with recursion fuel); returns the value and the
unconsumed remainder. -/
def parseJsonValue : ℕ → PyStr → Option (Json × PyStr)
  | 0, _ => none
  | fuel + 1, s =>
    match skipWs s with
    | [] => none
    | c :: rest =>
      if c = '"' then (parseStringBody rest).map (fun p => (.str p.1, p.2))
      else if c = '[' then
        match skipWs rest with
        | [] => none
        | c2 :: r2 =>
          if c2 = ']' then some (.arr [], r2)
          else (parseArrayItems fuel (c2 :: r2)).map (fun p => (.arr p.1, p.2))
      else if c = '{' then
        match skipWs rest with
        | [] => none
        | c2 :: r2 =>
          if c2 = '}' then some (.obj [], r2)
          else (parseObjMembers fuel (c2 :: r2)).map (fun p => (.obj p.1, p.2))
      else if c = 'n' then
        match rest with
        | 'u' :: 'l' :: 'l' :: r => some (.null, r)
        | _ => none
      else if c = 't' then
        match rest with
        | 'r' :: 'u' :: 'e' :: r => some (.bool true, r)
        | _ => none
      else if c = 'f' then
        match rest with
        | 'a' :: 'l' :: 's' :: 'e' :: r => some (.bool false, r)
        | _ => none
      else if c = 'N' then
        match rest with
        | 'a' :: 'N' :: r => some (.num "NaN".toList, r)
        | _ => none
      else if c = 'I' then
        match rest with
        | 'n' :: 'f' :: 'i' :: 'n' :: 'i' :: 't' :: 'y' :: r =>
          some (.num "Infinity".toList, r)
        | _ => none
      else if c = '-' then
        match rest with
        | 'I' :: 'n' :: 'f' :: 'i' :: 'n' :: 'i' :: 't' :: 'y' :: r =>
          some (.num "-Infinity".toList, r)
        | _ => (parseNumberToken (c :: rest)).map (fun p => (.num p.1, p.2))
      else (parseNumberToken (c :: rest)).map (fun p => (.num p.1, p.2))

/-- Parse the items of a non-empty JSON array (input starts at a value). -/
def parseArrayItems : ℕ → PyStr → Option (List Json × PyStr)
  | 0, _ => none
  | fuel + 1, s =>
    match parseJsonValue fuel s with
    | none => none
    | some (v, r1) =>
      match skipWs r1 with
      | [] => none
      | c :: r2 =>
        if c = ',' then
          match parseArrayItems fuel r2 with
          | none => none
          | some (vs, r3) => some (v :: vs, r3)
        else if c = ']' then some ([v], r2)
        else none

/-- Parse the members of a non-empty JSON object (input starts at a key,
whitespace already skipped). -/
def parseObjMembers : ℕ → PyStr → Option (List (PyStr × Json) × PyStr)
  | 0, _ => none
  | fuel + 1, s =>
    match s with
    | [] => none
    | c :: rest =>
      if c = '"' then
        match parseStringBody rest with
        | none => none
        | some (k, r1) =>
          match skipWs r1 with
          | [] => none
          | c2 :: r2 =>
            if c2 = ':' then
              match parseJsonValue fuel r2 with
              | none => none
              | some (v, r3) =>
                match skipWs r3 with
                | [] => none
                | c3 :: r4 =>
                  if c3 = ',' then
                    match parseObjMembers fuel (skipWs r4) with
                    | none => none
                    | some (ms, r5) => some ((k, v) :: ms, r5)
                  else if c3 = '}' then some ([(k, v)], r4)
                  else none
            else none
      else none

end

/-- Model of `json.load` on a whole text: one value, nothing but whitespace after. -/
def jsonParse (s : PyStr) : Option Json :=
  match parseJsonValue (s.length + 1) s with
  | some (v, rest) => if (skipWs rest).isEmpty then some v else none
  | none => none

/-- The file as the script finds it when loading the log. -/
inductive FileState where
  | missing
  | unreadable
  | content (s : PyStr)

/-- Embedding of `load_notification_log` (hs.py:70-79): the parsed log, or the empty
mapping when the file is missing, unreadable (`IOError`) or not valid JSON
(`json.JSONDecodeError`). -/
def load_notification_log : FileState → Json
  | .missing => .obj []
  | .unreadable => .obj []
  | .content s =>
    match jsonParse s with
    | some v => v
    | none => .obj []

/-- One serialized member line of `json.dump(..., indent=4)`. -/
def renderMember (kv : PyStr × PyStr) : PyStr :=
  "    ".toList ++ encodeStr kv.1 ++ ": ".toList ++ encodeStr kv.2

/-- The member lines joined with `,\n`. -/
def joinMembers : List (PyStr × PyStr) → PyStr
  | [] => []
  | [kv] => renderMember kv
  | kv :: rest => renderMember kv ++ ',' :: '\n' :: joinMembers rest

/-- Embedding of `save_notification_log` (hs.py:81-88): the text
`json.dump(log_data, f, ensure_ascii=False, indent=4)` writes. -/
def save_notification_log (log_data : List (PyStr × PyStr)) : PyStr :=
  match log_data with
  | [] => "{}".toList
  | _ => '{' :: '\n' :: (joinMembers log_data ++ '\n' :: ['}'])

/-- The JSON document a string-to-string log represents. -/
def logToJson (l : List (PyStr × PyStr)) : Json :=
  .obj (l.map (fun kv => (kv.1, Json.str kv.2)))

/-! ## Inputs used by the concrete claim witnesses -/

/-- Concrete batch response used as the C1 witness input. -/
def cbRespW : HttpResp :=
  ⟨200, "var hq_str_sh110001=\"N,1,2,99.5,x\";\nvar hq_str_sz123456=\"N,1,2,2000.0,x\";".toList⟩

/-- A quote record as the script's data sources can actually produce it:
either a single Sina quote, or the precomputed bond-average record. -/
def producedQuote (q : QuoteResult) : Prop :=
  (∃ api resp, get_data_sina api resp = q) ∨ (∃ co resp, cbPre co resp = q)

/-- A bare item used in concrete sorting witnesses. -/
def itemW (code : PyStr) (r : Option ℚ) : StockItem :=
  ⟨[], code, 0, [], false, some 1, none, none, none, none, none, r⟩

/-- Witness items for the notifier claims. -/
def notifyItemW : StockItem :=
  ⟨[], "SSEC".toList, 0, [], false, some 1, none, none, none, none, none, some (1 / 1000)⟩

/-- The three facts preserved by every notification step: log entries only
ever change to today's date; an un-set `log_updated` flag means the log is
untouched; a set flag exhibits a fresh entry. -/
def NotifyInv (today : PyStr) (log0 : LogMap) (st : NotifyState) : Prop :=
  (∀ c, dictLookup c st.log = dictLookup c log0 ∨ dictLookup c st.log = some today) ∧
  (st.log_updated = false → st.log = log0) ∧
  (st.log_updated = true →
    ∃ c, dictLookup c st.log = some today ∧ dictLookup c log0 ≠ some today)

/-- Concrete `fx_` response with four fields for the C10 witness. -/
def fxRespW : HttpResp :=
  ⟨200, "var hq_str_fx_susdcny=\"7.1,7.0,7.2,7.15\";".toList⟩

/-! ## Lemmas: the numeric string model -/

theorem dropWhile_ne_dot (l : PyStr) :
    l.dropWhile (fun c => c ≠ '.') = [] ∨
      ∃ t, l.dropWhile (fun c => c ≠ '.') = '.' :: t := by
  induction l with
  | nil => exact Or.inl rfl
  | cons c l ih =>
    by_cases hc : c = '.'
    · subst hc
      right
      exact ⟨l, by simp [List.dropWhile_cons]⟩
    · simpa [List.dropWhile_cons, hc] using ih

theorem count_dot_of_all_digit {l : PyStr} (h : l.all Char.isDigit = true) :
    l.count '.' = 0 := by
  rw [List.count_eq_zero]
  intro hmem
  have hd := List.all_eq_true.mp h _ hmem
  exact absurd hd (by decide)

/-- A string passing the script's digit check parses with `float` to a
non-negative rational. -/
theorem pyFloat_of_digitCheck {s : PyStr} (h : pyDigitCheck s = true) :
    ∃ q : ℚ, pyFloat s = some q ∧ 0 ≤ q := by
  have hsplit : s.takeWhile (fun c => c ≠ '.') ++ s.dropWhile (fun c => c ≠ '.') = s :=
    List.takeWhile_append_dropWhile _ s
  unfold pyDigitCheck removeFirstDot at h
  simp only [Bool.and_eq_true, Bool.not_eq_true'] at h
  obtain ⟨⟨-, hne0⟩, hall⟩ := h
  have hne : s.takeWhile (fun c => c ≠ '.') ++ (s.dropWhile (fun c => c ≠ '.')).drop 1 ≠ [] := by
    intro hh
    rw [hh] at hne0
    simp at hne0
  rw [List.all_append, Bool.and_eq_true] at hall
  obtain ⟨hip, hfp⟩ := hall
  have hcore : ∃ q : ℚ, pyFloatCore s = some q ∧ 0 ≤ q := by
    have hcond : ((s.all fun c => c.isDigit || c == '.') && decide (s.count '.' ≤ 1) &&
        s.any Char.isDigit) = true := by
      rw [Bool.and_eq_true, Bool.and_eq_true]
      refine ⟨⟨?_, ?_⟩, ?_⟩
      · rw [List.all_eq_true]
        intro c hc
        rw [← hsplit, List.mem_append] at hc
        rcases hc with hc | hc
        · have := List.all_eq_true.mp hip _ hc
          simp [this]
        · rcases dropWhile_ne_dot s with hdp | ⟨t, hdp⟩
          · rw [hdp] at hc
            exact absurd hc (List.not_mem_nil c)
          · rw [hdp] at hc
            rcases List.mem_cons.mp hc with hc | hc
            · subst hc; simp
            · have : c ∈ (s.dropWhile (fun c => c ≠ '.')).drop 1 := by
                rw [hdp]; simpa using hc
              have := List.all_eq_true.mp hfp _ this
              simp [this]
      · rw [decide_eq_true_eq]
        rcases dropWhile_ne_dot s with hdp | ⟨t, hdp⟩
        · rw [← hsplit, hdp, List.append_nil]
          rw [count_dot_of_all_digit]
          · omega
          · rw [hdp] at hfp
            simpa using hip
        · rw [← hsplit, hdp, List.count_append, List.count_cons]
          rw [count_dot_of_all_digit hip, count_dot_of_all_digit]
          · simp
          · rw [hdp] at hfp
            simpa using hfp
      · rw [List.any_eq_true]
        rcases List.exists_mem_of_ne_nil _ hne with ⟨c, hc⟩
        have hcd : c.isDigit = true := by
          rcases List.mem_append.mp hc with hm | hm
          · exact List.all_eq_true.mp hip _ hm
          · exact List.all_eq_true.mp hfp _ hm
        refine ⟨c, ?_, hcd⟩
        rcases List.mem_append.mp hc with hm | hm
        · rw [← hsplit, List.mem_append]
          exact Or.inl hm
        · rcases dropWhile_ne_dot s with hdp | ⟨t, hdp⟩
          · rw [hdp] at hm
            exact absurd hm (List.not_mem_nil c)
          · rw [← hsplit, List.mem_append, hdp]
            right
            rw [hdp] at hm
            simpa using List.mem_cons_of_mem _ hm
    unfold pyFloatCore
    rw [if_pos hcond]
    exact ⟨_, rfl, by positivity⟩
  obtain ⟨q, hq, hq0⟩ := hcore
  have hhead : ∀ c rest, s = c :: rest → c = '.' ∨ c.isDigit = true := by
    intro c rest hs
    rcases hip_shape : s.takeWhile (fun c => c ≠ '.') with - | ⟨a, ip'⟩
    · rcases dropWhile_ne_dot s with hdp | ⟨t, hdp⟩
      · exfalso
        apply hne
        rw [hip_shape, hdp]
        simp
      · left
        have hsd : s = '.' :: t := by
          conv_lhs => rw [← hsplit]
          rw [hip_shape, hdp, List.nil_append]
        rw [hs] at hsd
        exact (List.cons.injEq _ _ _ _ ▸ hsd).1
    · right
      have hae : c = a := by
        have hsd : s = a :: (ip' ++ s.dropWhile (fun c => c ≠ '.')) := by
          conv_lhs => rw [← hsplit]
          rw [hip_shape, List.cons_append]
        rw [hs] at hsd
        exact (List.cons.injEq _ _ _ _ ▸ hsd).1
      have hmem : a ∈ s.takeWhile (fun c => c ≠ '.') := by
        rw [hip_shape]
        exact List.mem_cons_self a ip'
      rw [hae]
      exact List.all_eq_true.mp hip _ hmem
  refine ⟨q, ?_, hq0⟩
  cases hs : s with
  | nil =>
    exfalso
    apply hne
    rw [hs]
    simp
  | cons c rest =>
    rw [hs] at hq
    rcases hhead c rest hs with hc | hc
    · subst hc
      simp only [pyFloat]
      rw [if_neg (by decide), if_neg (by decide)]
      exact hq
    · have h1 : c ≠ '-' := by rintro rfl; exact absurd hc (by decide)
      have h2 : c ≠ '+' := by rintro rfl; exact absurd hc (by decide)
      simp only [pyFloat]
      rw [if_neg h1, if_neg h2]
      exact hq

/-- The guarded `float(...)` value of a digit-checked string is non-negative. -/
theorem pyFloatD_nonneg {s : PyStr} (h : pyDigitCheck s = true) : 0 ≤ pyFloatD s := by
  obtain ⟨q, hq, hq0⟩ := pyFloat_of_digitCheck h
  rw [pyFloatD, hq]
  exact hq0

theorem pyDigitCheck_ne_nil {s : PyStr} (h : pyDigitCheck s = true) : s ≠ [] := by
  intro hs
  subst hs
  exact absurd h (by decide)

/-! ## Lemmas: the fetchers -/

/-- A successful Sina quote always carries a non-negative current price. -/
theorem get_data_sina_current_nonneg (api : PyStr) (resp : HttpResp) (C : ℚ)
    (h : (get_data_sina api resp).current = some C) : 0 ≤ C := by
  unfold get_data_sina at h
  split at h
  · exact absurd h (by simp [QuoteResult.current])
  · split at h
    · split at h
      · rename_i hcond
        simp only [QuoteResult.current, Option.some.injEq] at h
        rw [← h]
        exact pyFloatD_nonneg hcond.2.2
      · exact absurd h (by simp [QuoteResult.current])
    · split at h
      · rename_i hcond
        split at h
        · exact absurd h (by simp [QuoteResult.current])
        · split at h
          · exact absurd h (by simp [QuoteResult.current])
          · simp only [QuoteResult.current, Option.some.injEq] at h
            rw [← h]
            exact pyFloatD_nonneg hcond.2
      · exact absurd h (by simp [QuoteResult.current])

/-- Every element of the filtered bond-price list lies in `(0, MAX_CB_PRICE)`. -/
theorem cbPrices_mem {data : PyStr} {x : ℚ} (hx : x ∈ cbPrices data) :
    0 < x ∧ x < MAX_CB_PRICE := by
  unfold cbPrices at hx
  rw [List.mem_filterMap] at hx
  obtain ⟨line, -, hline⟩ := hx
  split at hline
  · exact absurd hline (by simp)
  · split at hline
    · rename_i p hp hcond
      rw [Option.some.injEq] at hline
      rw [← hline]
      exact hcond
    · exact absurd hline (by simp)

/-- A successful bond-average quote carries a positive current price. -/
theorem cb_avg_current_pos (codes : List PyStr) (resp : HttpResp) (C : ℚ)
    (h : (get_cb_avg_price_from_list codes resp).current = some C) : 0 < C := by
  unfold get_cb_avg_price_from_list at h
  split at h
  · exact absurd h (by simp [QuoteResult.current])
  · split at h
    · exact absurd h (by simp [QuoteResult.current])
    · split at h
      · exact absurd h (by simp [QuoteResult.current])
      · rename_i hne
        simp only [QuoteResult.current, Option.some.injEq] at h
        rw [← h]
        apply div_pos
        · apply List.sum_pos
          · intro a ha
            exact (cbPrices_mem ha).1
          · intro hnil
            rw [hnil] at hne
            exact hne rfl
        · have hlen : (cbPrices resp.text).length ≠ 0 := by
            simp only [ne_eq, List.length_eq_zero]
            intro hnil
            rw [hnil] at hne
            exact hne rfl
          positivity

/-- The list `cbPrices` is exactly the range-filtered sublist of `cbParsedPrices`. -/
theorem cbPrices_eq_filter (data : PyStr) :
    cbPrices data =
      (cbParsedPrices data).filter (fun p => decide (0 < p ∧ p < MAX_CB_PRICE)) := by
  unfold cbPrices cbParsedPrices
  induction cbValidLines data with
  | nil => rfl
  | cons line rest ih =>
    simp only [List.filterMap_cons]
    cases hl : cbLinePrice line with
    | none => simpa [hl] using ih
    | some p =>
      simp only [hl]
      by_cases hp : 0 < p ∧ p < MAX_CB_PRICE
      · rw [if_pos hp, List.filter_cons, if_pos (decide_eq_true hp), ih]
      · rw [if_neg hp, List.filter_cons,
          if_neg (by simp [hp] : ¬(decide (0 < p ∧ p < MAX_CB_PRICE) = true)), ih]

/-- C1: for every batch response, `get_cb_avg_price_from_list` returns the
arithmetic mean and count of exactly the parsed prices `p` with
`0 < p < MAX_CB_PRICE`; when no price survives the filter it returns the
`计算失败` (empty-result) error record, and the mean's denominator is never
zero. -/
theorem C1_aggregator_mean (codes : List PyStr) (resp : HttpResp)
    (hcodes : codes ≠ []) (hstatus : resp.status_code = 200)
    (htext : (stripWs resp.text).isEmpty = false) :
    ((cbParsedPrices resp.text).filter (fun p => decide (0 < p ∧ p < MAX_CB_PRICE)) ≠ [] →
      get_cb_avg_price_from_list codes resp =
        .ok
          (some (((cbParsedPrices resp.text).filter
              (fun p => decide (0 < p ∧ p < MAX_CB_PRICE))).sum /
            ((cbParsedPrices resp.text).filter
              (fun p => decide (0 < p ∧ p < MAX_CB_PRICE))).length))
          none none
          (some ((cbParsedPrices resp.text).filter
            (fun p => decide (0 < p ∧ p < MAX_CB_PRICE))).length) ∧
      ((((cbParsedPrices resp.text).filter
          (fun p => decide (0 < p ∧ p < MAX_CB_PRICE))).length : ℚ) ≠ 0)) ∧
    ((cbParsedPrices resp.text).filter (fun p => decide (0 < p ∧ p < MAX_CB_PRICE)) = [] →
      get_cb_avg_price_from_list codes resp =
        .err "计算失败".toList
          ("已获取 ".toList ++ natToStr codes.length ++
            " 个代码，但新浪未返回有效或低于 ".toList ++ fmtFixed MAX_CB_PRICE 2 ++
            " 的价格数据。".toList)) := by
  have hkept := cbPrices_eq_filter resp.text
  constructor
  · intro hne
    rw [← hkept] at hne ⊢
    constructor
    · unfold get_cb_avg_price_from_list
      rw [if_neg, if_neg, if_neg]
      · intro hh
        rw [List.isEmpty_iff] at hh
        exact hne hh
      · rintro (hh | hh)
        · exact hh hstatus
        · rw [htext] at hh
          exact Bool.true_eq_false.mp (hh ▸ rfl)
      · intro hh
        rw [List.isEmpty_iff] at hh
        exact hcodes hh
    · intro hh
      apply hne
      rw [← List.length_eq_zero]
      exact_mod_cast hh
  · intro hemp
    rw [← hkept] at hemp
    unfold get_cb_avg_price_from_list
    rw [if_neg, if_neg, if_pos]
    · rw [List.isEmpty_iff]
      exact hemp
    · rintro (hh | hh)
      · exact hh hstatus
      · rw [htext] at hh
        exact Bool.true_eq_false.mp (hh ▸ rfl)
    · intro hh
      rw [List.isEmpty_iff] at hh
      exact hcodes hh

/-- Witness for C1 at a concrete response: one price survives (99.5), one is
filtered out (2000.0), and the aggregator returns their mean 99.5 with
count 1. -/
theorem C1_aggregator_mean_witness :
    get_cb_avg_price_from_list ["sh110001".toList] cbRespW =
      .ok (some (199 / 2)) none none (some 1) := by
  have h :=
    (C1_aggregator_mean ["sh110001".toList] cbRespW (by decide) rfl (by decide)).1
      (by with_unfolding_all decide)
  exact h.1.trans (by with_unfolding_all decide)

/-- C10: the currency-pair fallback branch of `get_data_sina` is dead code —
the function coincides with the variant that omits it; any parsable response
with fewer than four comma-separated fields yields the `解析失败/数据项不足`
error; and an `fx_`-prefixed code whose response has at least four fields is
parsed with the equity/index layout: price from `parts[3]`, open from
`parts[1]`, previous close from `parts[2]`. -/
theorem C10_fx_fallback_dead (api : PyStr) (resp : HttpResp) :
    get_data_sina api resp = get_data_sina_noFallback api resp ∧
    (resp.status_code = 200 → containsEqQuote resp.text = true →
      (sinaParts resp.text).length < 4 →
      get_data_sina api resp = .err "解析失败".toList "数据项不足".toList) ∧
    ("fx_".toList.isPrefixOf api = true → resp.status_code = 200 →
      containsEqQuote resp.text = true → 4 ≤ (sinaParts resp.text).length →
      pyDigitCheck ((sinaParts resp.text).getD 3 []) = true →
      ∀ op pc, pyFloat ((sinaParts resp.text).getD 1 []) = some op →
        pyFloat ((sinaParts resp.text).getD 2 []) = some pc →
        get_data_sina api resp =
          .ok (some (pyFloatD ((sinaParts resp.text).getD 3 []))) (some op) (some pc)
            none) := by
  refine ⟨?_, ?_, ?_⟩
  · unfold get_data_sina get_data_sina_noFallback
    split
    · rfl
    · split
      · rw [if_neg]
        rename_i hlt
        rintro ⟨-, h4, -⟩
        omega
      · rfl
  · intro h200 heq hlt
    unfold get_data_sina
    rw [if_neg, if_pos hlt, if_neg]
    · rintro ⟨-, h4, -⟩
      omega
    · rintro (hh | hh)
      · exact hh h200
      · rw [heq] at hh
        exact Bool.true_eq_false.mp (hh ▸ rfl)
  · intro hfx h200 heq h4 hdig op pc hop hpc
    unfold get_data_sina
    rw [if_neg, if_neg, if_pos, hop, hpc]
    · exact ⟨pyDigitCheck_ne_nil hdig, hdig⟩
    · omega
    · rintro (hh | hh)
      · exact hh h200
      · rw [heq] at hh
        exact Bool.true_eq_false.mp (hh ▸ rfl)

/-! ## Claim C2: the target ratio -/

/-- Any produced quote with a current price has a non-negative one. -/
theorem produced_current_nonneg {q : QuoteResult} (hq : producedQuote q) {C : ℚ}
    (hc : q.current = some C) : 0 ≤ C := by
  rcases hq with ⟨api, resp, rfl⟩ | ⟨co, resp, rfl⟩
  · exact get_data_sina_current_nonneg api resp C hc
  · cases co with
    | error msg => exact absurd hc (by simp [cbPre, QuoteResult.current])
    | ok codes =>
      exact le_of_lt (cb_avg_current_pos codes resp C (by simpa [cbPre] using hc))

/-- C2: for every evaluated target whose quote succeeded with a non-null,
non-zero current price `C` and target price `T`, the computed ratio is
`(C − T) / C`; it is zero iff `C = T` and negative iff `C < T`. -/
theorem C2_ratio_formula (cfg : TargetConfig) (q : QuoteResult)
    (hq : producedQuote q) (C : ℚ) (hC : q.current = some C) (hC0 : C ≠ 0) :
    (applyRatio (assembleItem cfg q)).ratio_value = some ((C - cfg.target_price) / C) ∧
    ((applyRatio (assembleItem cfg q)).ratio_value = some 0 ↔ C = cfg.target_price) ∧
    (∀ r, (applyRatio (assembleItem cfg q)).ratio_value = some r →
      (r < 0 ↔ C < cfg.target_price)) := by
  have hpos : 0 < C := lt_of_le_of_ne (produced_current_nonneg hq hC) (Ne.symm hC0)
  have herr : q.isErr = false := by
    cases q with
    | ok c o p n => rfl
    | err k d => exact absurd hC (by simp [QuoteResult.current])
  have hval : (applyRatio (assembleItem cfg q)).ratio_value =
      some ((C - cfg.target_price) / C) := by
    unfold applyRatio
    have hcur : (assembleItem cfg q).current_price = some C := hC
    rw [hcur]
    dsimp only
    rw [if_pos ⟨herr, hC0⟩]
    rfl
  refine ⟨hval, ?_, ?_⟩
  · rw [hval]
    rw [Option.some.injEq]
    rw [div_eq_zero_iff]
    constructor
    · rintro (hz | hz)
      · linarith [sub_eq_zero.mp hz]
      · exact absurd hz hC0
    · intro he
      left
      rw [he]
      ring
  · intro r hr
    rw [hval, Option.some.injEq] at hr
    rw [← hr, div_neg_iff]
    constructor
    · rintro (⟨-, hb⟩ | ⟨ha, -⟩)
      · linarith
      · linarith
    · intro hlt
      right
      exact ⟨by linarith, hpos⟩

/-- Witness for C2: the SSEC config with a concrete quote at price 12.5 and
target 3000 yields ratio (12.5 − 3000)/12.5 = −238.996..., negative since
the price is below target. -/
theorem C2_ratio_formula_witness :
    (applyRatio (assembleItem
        ⟨"SSEC".toList, "上证指数".toList, .SINA, some "sh000001".toList, 3000,
          "/暂无".toList⟩
        (get_data_sina "sh000001".toList
          ⟨200, "var hq_str_sh000001=\"N,10.0,11.0,12.5,x\";".toList⟩))).ratio_value =
      some ((25 / 2 - 3000) / (25 / 2)) := by
  have h :=
    (C2_ratio_formula
      ⟨"SSEC".toList, "上证指数".toList, .SINA, some "sh000001".toList, 3000,
        "/暂无".toList⟩
      (get_data_sina "sh000001".toList
        ⟨200, "var hq_str_sh000001=\"N,10.0,11.0,12.5,x\";".toList⟩)
      (Or.inl ⟨_, _, rfl⟩) (25 / 2) (by with_unfolding_all decide)
      (by with_unfolding_all decide)).1
  exact h

/-! ## Claims C4, C5: sorting by ratio -/

theorem keyLE_refl (v : Option ℚ) : keyLE v v := by
  cases v
  · trivial
  · exact le_refl _

/-- Stability of one ordered insertion, phrased through key-class filters. -/
theorem filter_orderedInsert (v : Option ℚ) (a : StockItem) (s : List StockItem) :
    (s.orderedInsert itemLE a).filter (fun z => decide (z.ratio_value = v)) =
      if a.ratio_value = v then
        a :: s.filter (fun z => decide (z.ratio_value = v))
      else s.filter (fun z => decide (z.ratio_value = v)) := by
  induction s with
  | nil =>
    by_cases hav : a.ratio_value = v
    · rw [if_pos hav]
      simp [List.orderedInsert, hav]
    · rw [if_neg hav]
      simp [List.orderedInsert, hav]
  | cons b t ih =>
    rw [List.orderedInsert]
    by_cases hab : itemLE a b
    · rw [if_pos hab, List.filter_cons, List.filter_cons]
      by_cases hav : a.ratio_value = v
      · rw [if_pos hav, if_pos (decide_eq_true hav)]
      · rw [if_neg hav, if_neg (by simp [hav] : ¬(decide (a.ratio_value = v) = true))]
    · rw [if_neg hab, List.filter_cons, List.filter_cons, ih]
      by_cases hav : a.ratio_value = v
      · have hbv : ¬ b.ratio_value = v := by
          intro hbv
          apply hab
          unfold itemLE
          rw [hav, hbv]
          exact keyLE_refl v
        simp [hav, hbv]
      · simp [hav]

/-- Stability of the whole sort: each ratio-key class is preserved in order. -/
theorem filter_sortStep (v : Option ℚ) (l : List StockItem) :
    (sortStep l).filter (fun z => decide (z.ratio_value = v)) =
      l.filter (fun z => decide (z.ratio_value = v)) := by
  unfold sortStep
  induction l with
  | nil => rfl
  | cons a t ih =>
    rw [List.insertionSort, filter_orderedInsert, List.filter_cons]
    by_cases hav : a.ratio_value = v
    · rw [if_pos hav, if_pos (decide_eq_true hav), ih]
    · rw [if_neg hav, if_neg (by simp [hav] : ¬(decide (a.ratio_value = v) = true)), ih]

/-- A list sorted by the ratio order splits into a numeric-ratio prefix and a
null-ratio suffix. -/
theorem sorted_null_split {m : List StockItem} (hm : m.Sorted itemLE) :
    ∃ a b, m = a ++ b ∧ (∀ x ∈ a, (x.ratio_value).isSome = true) ∧
      (∀ x ∈ b, x.ratio_value = none) := by
  induction m with
  | nil =>
    refine ⟨[], [], rfl, ?_, ?_⟩
    · intro x hx
      exact absurd hx (List.not_mem_nil x)
    · intro x hx
      exact absurd hx (List.not_mem_nil x)
  | cons x t ih =>
    cases hx : x.ratio_value with
    | none =>
      refine ⟨[], x :: t, rfl, ?_, ?_⟩
      · intro y hy
        exact absurd hy (List.not_mem_nil y)
      · intro y hy
        rcases List.mem_cons.mp hy with rfl | hy
        · exact hx
        · have hrel := List.rel_of_sorted_cons hm y hy
          unfold itemLE at hrel
          rw [hx] at hrel
          cases hyv : y.ratio_value with
          | none => rfl
          | some q0 =>
            rw [hyv] at hrel
            exact hrel.elim
    | some q0 =>
      obtain ⟨a, b, habe, hA, hB⟩ := ih hm.of_cons
      refine ⟨x :: a, b, by rw [habe, List.cons_append], ?_, hB⟩
      intro y hy
      rcases List.mem_cons.mp hy with rfl | hy
      · rw [hx]
        rfl
      · exact hA y hy

/-- C4: sorting the evaluated list by ratio (nulls as `+∞`) permutes it, is
stable (each ratio class keeps its relative order), orders keys ascending
(pairwise `keyLE`), and places every null-ratio entry after every
numeric-ratio entry. -/
theorem C4_sort_stable (l : List StockItem) :
    (sortStep l).Perm l ∧
    (sortStep l).Sorted itemLE ∧
    (∀ v : Option ℚ, (sortStep l).filter (fun z => decide (z.ratio_value = v)) =
      l.filter (fun z => decide (z.ratio_value = v))) ∧
    ∃ a b, sortStep l = a ++ b ∧ (∀ x ∈ a, (x.ratio_value).isSome = true) ∧
      (∀ x ∈ b, x.ratio_value = none) := by
  refine ⟨List.perm_insertionSort itemLE l, List.sorted_insertionSort itemLE l, ?_, ?_⟩
  · intro v
    exact filter_sortStep v l
  · exact sorted_null_split (List.sorted_insertionSort itemLE l)

/-- Witness for C4 at a concrete list: sortedness and stability hold for
`[none, 2, 1]`-keyed items (sorted order `[1, 2, none]`). -/
theorem C4_sort_stable_witness :
    (sortStep [itemW ['n'] none, itemW ['a'] (some 2), itemW ['b'] (some 1)]).Sorted
        itemLE ∧
      (sortStep [itemW ['n'] none, itemW ['a'] (some 2), itemW ['b'] (some 1)]).filter
          (fun z => decide (z.ratio_value = some 2)) =
        [itemW ['n'] none, itemW ['a'] (some 2), itemW ['b'] (some 1)].filter
          (fun z => decide (z.ratio_value = some 2)) :=
  ⟨(C4_sort_stable [itemW ['n'] none, itemW ['a'] (some 2), itemW ['b'] (some 1)]).2.1,
    (C4_sort_stable [itemW ['n'] none, itemW ['a'] (some 2),
      itemW ['b'] (some 1)]).2.2.1 (some 2)⟩

/-- C5: a target whose fetch produced an error record — and likewise one
whose record misses a current price — is assigned a null ratio, and in the
sorted list every null-ratio item lies in the suffix after all numeric-ratio
items (its key acts as `+∞`).  (A missing target price cannot occur: every
configuration entry carries one, so that part of the claim is vacuous.) -/
theorem C5_errors_sort_last (cfg : TargetConfig) (q : QuoteResult) :
    (q.isErr = true → (applyRatio (assembleItem cfg q)).ratio_value = none) ∧
    ((assembleItem cfg q).current_price = none →
      (applyRatio (assembleItem cfg q)).ratio_value = none) ∧
    (∀ l : List StockItem, ∃ a b, sortStep l = a ++ b ∧
      (∀ x ∈ a, (x.ratio_value).isSome = true) ∧ (∀ x ∈ b, x.ratio_value = none) ∧
      (∀ x ∈ sortStep l, x.ratio_value = none → x ∈ b)) := by
  refine ⟨?_, ?_, ?_⟩
  · intro herr
    cases q with
    | ok c o p n => exact absurd herr (by simp [QuoteResult.isErr])
    | err k d =>
      unfold applyRatio
      have hcur : (assembleItem cfg (.err k d)).current_price = none := rfl
      rw [hcur]
  · intro hcur
    unfold applyRatio
    rw [hcur]
  · intro l
    obtain ⟨a, b, habe, hA, hB⟩ := sorted_null_split (List.sorted_insertionSort itemLE l)
    refine ⟨a, b, habe, hA, hB, ?_⟩
    intro x hx hnone
    unfold sortStep at hx
    rw [habe] at hx
    rcases List.mem_append.mp hx with hxa | hxb
    · have := hA x hxa
      rw [hnone] at this
      exact absurd this (by intro hh; exact Bool.false_ne_true hh)
    · exact hxb

/-- Witness for C5: a concrete error record gets a null ratio. -/
theorem C5_errors_sort_last_witness :
    (applyRatio (assembleItem
        ⟨"SSEC".toList, "上证指数".toList, .SINA, some "sh000001".toList, 3000,
          "/暂无".toList⟩
        (.err "网络错误".toList []))).ratio_value = none :=
  (C5_errors_sort_last
    ⟨"SSEC".toList, "上证指数".toList, .SINA, some "sh000001".toList, 3000,
      "/暂无".toList⟩
    (.err "网络错误".toList [])).1 (by decide)

/-! ## Claims C3, C6: notification trigger, de-duplication, log write-back -/

theorem dictLookup_dictInsert_self (k v : PyStr) (m : LogMap) :
    dictLookup k (dictInsert k v m) = some v := by
  induction m with
  | nil => simp [dictInsert, dictLookup]
  | cons kv rest ih =>
    obtain ⟨k', v'⟩ := kv
    by_cases hk : k' = k
    · simp [dictInsert, dictLookup, hk]
    · simp [dictInsert, dictLookup, hk, ih]

theorem dictLookup_dictInsert_ne {c k : PyStr} (hck : c ≠ k) (v : PyStr) (m : LogMap) :
    dictLookup c (dictInsert k v m) = dictLookup c m := by
  have hkc : ¬ k = c := fun h => hck h.symm
  induction m with
  | nil => simp [dictInsert, dictLookup, hkc]
  | cons kv rest ih =>
    obtain ⟨k', v'⟩ := kv
    by_cases hk : k' = k
    · subst hk
      simp [dictInsert, dictLookup, hkc]
    · simp [dictInsert, dictLookup, hk, ih]

/-- C3: for an item with a non-null ratio, the push call is invoked iff
`|ratio| ≤ NOTIFICATION_TOLERANCE` and the log does not already map the
item's code to today; when the log already contains `{code: today}`, no push
call is made and the state (log included) is completely unchanged. -/
theorem C3_notify_dedup (today : PyStr) (push : PyStr → Bool) (st : NotifyState)
    (item : StockItem) (r : ℚ) (hr : item.ratio_value = some r)
    (herr : item.is_error = false) :
    ((notifyStep today push st item).2 = true ↔
      (|r| ≤ NOTIFICATION_TOLERANCE ∧ dictLookup item.code st.log ≠ some today)) ∧
    (dictLookup item.code st.log = some today →
      (notifyStep today push st item).2 = false ∧
      (notifyStep today push st item).1 = st) := by
  unfold notifyStep
  rw [hr]
  dsimp only
  rw [if_neg (by rw [herr]; exact Bool.false_ne_true)]
  by_cases hcond : |r| ≤ NOTIFICATION_TOLERANCE ∧ ¬ dictLookup item.code st.log = some today
  · rw [if_pos hcond]
    have h2 : (if push item.code = true then
        ((⟨dictInsert item.code today st.log, true⟩ : NotifyState), true)
        else (st, true)).2 = true := by
      by_cases hp : push item.code = true
      · rw [if_pos hp]
      · rw [if_neg hp]
    constructor
    · constructor
      · intro _
        exact hcond
      · intro _
        exact h2
    · intro htoday
      exact absurd htoday hcond.2
  · rw [if_neg hcond]
    constructor
    · constructor
      · intro hh
        exact absurd hh (by simp)
      · intro hh
        exact absurd hh hcond
    · intro _
      exact ⟨rfl, rfl⟩

/-- Witness for C3: with the log already holding `{SSEC: today}`, re-running
the step for a triggering ratio pushes nothing and leaves the state alone. -/
theorem C3_notify_dedup_witness :
    (notifyStep "2025-01-01".toList (fun _ => true)
        ⟨[("SSEC".toList, "2025-01-01".toList)], false⟩ notifyItemW).2 = false ∧
    (notifyStep "2025-01-01".toList (fun _ => true)
        ⟨[("SSEC".toList, "2025-01-01".toList)], false⟩ notifyItemW).1 =
      ⟨[("SSEC".toList, "2025-01-01".toList)], false⟩ :=
  (C3_notify_dedup "2025-01-01".toList (fun _ => true)
      ⟨[("SSEC".toList, "2025-01-01".toList)], false⟩ notifyItemW (1 / 1000) rfl rfl).2
    (by decide)

/-- Each step either leaves the state unchanged or records today's date for
the item's code (after a successful push on a triggered, un-notified item). -/
theorem notifyStep_cases (today : PyStr) (push : PyStr → Bool) (st : NotifyState)
    (item : StockItem) :
    (notifyStep today push st item).1 = st ∨
    (dictLookup item.code st.log ≠ some today ∧ push item.code = true ∧
      (notifyStep today push st item).1 = ⟨dictInsert item.code today st.log, true⟩) := by
  unfold notifyStep
  cases hr : item.ratio_value with
  | none => exact Or.inl rfl
  | some r =>
    dsimp only
    by_cases herr : item.is_error = true
    · rw [if_pos herr]
      exact Or.inl rfl
    · rw [if_neg herr]
      by_cases hcond : |r| ≤ NOTIFICATION_TOLERANCE ∧ ¬ dictLookup item.code st.log = some today
      · rw [if_pos hcond]
        by_cases hp : push item.code
        · rw [if_pos hp]
          exact Or.inr ⟨hcond.2, hp, rfl⟩
        · rw [if_neg hp]
          exact Or.inl rfl
      · rw [if_neg hcond]
        exact Or.inl rfl

theorem notifyStep_inv (today : PyStr) (push : PyStr → Bool) (log0 : LogMap)
    (st : NotifyState) (item : StockItem) (h : NotifyInv today log0 st) :
    NotifyInv today log0 (notifyStep today push st item).1 := by
  rcases notifyStep_cases today push st item with heq | ⟨hlk, -, heq⟩
  · rw [heq]
    exact h
  · rw [heq]
    obtain ⟨h1, h2, h3⟩ := h
    refine ⟨?_, ?_, ?_⟩
    · intro c
      by_cases hc : c = item.code
      · subst hc
        right
        exact dictLookup_dictInsert_self _ _ _
      · rw [dictLookup_dictInsert_ne hc]
        exact h1 c
    · intro hh
      exact absurd hh (by simp)
    · intro _
      refine ⟨item.code, dictLookup_dictInsert_self _ _ _, ?_⟩
      rcases h1 item.code with he | he
      · rw [← he]
        exact hlk
      · exact absurd he hlk

theorem notifyFold_inv (today : PyStr) (push : PyStr → Bool) (log0 : LogMap)
    (items : List StockItem) :
    ∀ st, NotifyInv today log0 st →
      NotifyInv today log0
        (items.foldl (fun st item => (notifyStep today push st item).1) st) := by
  induction items with
  | nil =>
    intro st h
    exact h
  | cons item rest ih =>
    intro st h
    rw [List.foldl_cons]
    exact ih _ (notifyStep_inv today push log0 st item h)

theorem notifyFold_push_false (today : PyStr) (push : PyStr → Bool)
    (items : List StockItem) :
    ∀ st (c : PyStr), push c = false →
      dictLookup c
          (items.foldl (fun st item => (notifyStep today push st item).1) st).log =
        dictLookup c st.log := by
  induction items with
  | nil =>
    intro st c _
    rfl
  | cons item rest ih =>
    intro st c hc
    rw [List.foldl_cons]
    rw [ih _ c hc]
    rcases notifyStep_cases today push st item with heq | ⟨-, hp, heq⟩
    · rw [heq]
    · rw [heq]
      dsimp only
      apply dictLookup_dictInsert_ne
      intro hcc
      rw [hcc, hp] at hc
      exact absurd hc (by decide)

/-- C6: a failed push leaves the log entry of that target unchanged across
the whole run, and the log file is written back at the end of the run iff
the run changed the in-memory log (i.e. at least one new entry was set). -/
theorem C6_log_write_back (today : PyStr) (push : PyStr → Bool)
    (items : List StockItem) (log0 : LogMap) :
    (∀ c, push c = false →
      dictLookup c (notifyRun today push items log0).log = dictLookup c log0) ∧
    (saveCalled today push items log0 = true ↔
      (notifyRun today push items log0).log ≠ log0) := by
  have hinv : NotifyInv today log0 (notifyRun today push items log0) := by
    apply notifyFold_inv
    refine ⟨fun c => Or.inl rfl, fun _ => rfl, ?_⟩
    intro hh
    exact absurd hh (by simp)
  constructor
  · intro c hc
    exact notifyFold_push_false today push items _ c hc
  · unfold saveCalled
    constructor
    · intro hupd
      obtain ⟨c, hc1, hc2⟩ := hinv.2.2 hupd
      intro heq
      rw [heq] at hc1
      exact hc2 hc1
    · intro hne
      by_cases hupd : (notifyRun today push items log0).log_updated = true
      · exact hupd
      · exact absurd (hinv.2.1 (by simpa using hupd)) hne

/-- Witness for C6: one triggered item whose push fails — the log entry is
unchanged and no write-back happens (the run's log equals the initial log). -/
theorem C6_log_write_back_witness :
    dictLookup "SSEC".toList
        (notifyRun "2025-01-01".toList (fun _ => false) [notifyItemW] []).log =
      dictLookup "SSEC".toList ([] : LogMap) ∧
    (saveCalled "2025-01-01".toList (fun _ => false) [notifyItemW] [] = true ↔
      (notifyRun "2025-01-01".toList (fun _ => false) [notifyItemW] []).log ≠
        ([] : LogMap)) :=
  ⟨(C6_log_write_back "2025-01-01".toList (fun _ => false) [notifyItemW] []).1
      "SSEC".toList rfl,
    (C6_log_write_back "2025-01-01".toList (fun _ => false) [notifyItemW] []).2⟩

/-! ## Claim C9: log loading resilience -/

/-- C9: loading the notification log from a missing, unreadable, or
non-JSON file yields the empty mapping (the function is total — the run
continues). -/
theorem C9_load_resilient :
    load_notification_log .missing = .obj [] ∧
    load_notification_log .unreadable = .obj [] ∧
    (∀ s, jsonParse s = none → load_notification_log (.content s) = .obj []) := by
  refine ⟨rfl, rfl, ?_⟩
  intro s hs
  simp only [load_notification_log, hs]

/-- Witness for C9 at a concrete corrupt file content. -/
theorem C9_load_resilient_witness :
    load_notification_log (.content "not json".toList) = .obj [] :=
  C9_load_resilient.2.2 "not json".toList rfl

/-! ## Claim C8: per-target error containment and total rendering -/

theorem get_data_sina_ok_some (api : PyStr) (resp : HttpResp) (c o p : Option ℚ)
    (n : Option ℕ) (h : get_data_sina api resp = .ok c o p n) : ∃ v, c = some v := by
  unfold get_data_sina at h
  split at h
  · exact QuoteResult.noConfusion h
  · split at h
    · split at h
      · injection h with h1 h2 h3 h4
        exact ⟨_, h1.symm⟩
      · exact QuoteResult.noConfusion h
    · split at h
      · split at h
        · exact QuoteResult.noConfusion h
        · split at h
          · exact QuoteResult.noConfusion h
          · injection h with h1 h2 h3 h4
            exact ⟨_, h1.symm⟩
      · exact QuoteResult.noConfusion h

theorem get_cb_avg_ok_some (codes : List PyStr) (resp : HttpResp) (c o p : Option ℚ)
    (n : Option ℕ) (h : get_cb_avg_price_from_list codes resp = .ok c o p n) :
    ∃ v, c = some v := by
  unfold get_cb_avg_price_from_list at h
  split at h
  · exact QuoteResult.noConfusion h
  · split at h
    · exact QuoteResult.noConfusion h
    · split at h
      · exact QuoteResult.noConfusion h
      · injection h with h1 h2 h3 h4
        exact ⟨_, h1.symm⟩

/-- Every quote record a run's fetch layer produces is well-formed: if it is
not an error record, it carries a current price. -/
theorem runFetch_ok_some (sinaResp : PyStr → HttpResp) (co : Except PyStr (List PyStr))
    (cbResp : HttpResp) (cfg : TargetConfig)
    (he : (runFetch sinaResp (cbPre co cbResp) cfg).isErr = false) :
    ∃ v, (runFetch sinaResp (cbPre co cbResp) cfg).current = some v := by
  cases htt : cfg.ttype with
  | SINA =>
    simp only [runFetch, htt] at he ⊢
    cases hq : get_data_sina (cfg.api_code.getD []) (sinaResp (cfg.api_code.getD [])) with
    | ok c o p n =>
      obtain ⟨v, hv⟩ := get_data_sina_ok_some _ _ c o p n hq
      rw [hv]
      exact ⟨v, rfl⟩
    | err k d =>
      rw [hq] at he
      exact absurd he (by simp [QuoteResult.isErr])
  | CB_AVG =>
    simp only [runFetch, htt] at he ⊢
    cases co with
    | error msg => exact absurd he (by simp [cbPre, QuoteResult.isErr])
    | ok codes =>
      simp only [cbPre] at he ⊢
      cases hq : get_cb_avg_price_from_list codes cbResp with
      | ok c o p n =>
        obtain ⟨v, hv⟩ := get_cb_avg_ok_some codes cbResp c o p n hq
        rw [hv]
        exact ⟨v, rfl⟩
      | err k d =>
        rw [hq] at he
        exact absurd he (by simp [QuoteResult.isErr])

theorem applyRatio_current (it : StockItem) :
    (applyRatio it).current_price = it.current_price := by
  unfold applyRatio
  split
  · split <;> rfl
  · rfl

theorem applyRatio_is_error (it : StockItem) : (applyRatio it).is_error = it.is_error := by
  unfold applyRatio
  split
  · split <;> rfl
  · rfl

/-- Every item the evaluation phase produces has a current price when it is
not an error row. -/
theorem runEval_wellFormed (configs : List TargetConfig) (sinaResp : PyStr → HttpResp)
    (co : Except PyStr (List PyStr)) (cbResp : HttpResp) :
    ∀ item ∈ runEval configs sinaResp (cbPre co cbResp),
      item.is_error = false → (item.current_price).isSome = true := by
  intro item hmem hne
  unfold runEval evalAll at hmem
  rw [List.map_map, List.mem_map] at hmem
  obtain ⟨cfg, -, rfl⟩ := hmem
  rw [Function.comp_apply] at hne ⊢
  rw [applyRatio_is_error] at hne
  rw [applyRatio_current]
  have he : (runFetch sinaResp (cbPre co cbResp) cfg).isErr = false := hne
  obtain ⟨v, hv⟩ := runFetch_ok_some sinaResp co cbResp cfg he
  show ((assembleItem cfg (runFetch sinaResp (cbPre co cbResp) cfg)).current_price).isSome
      = true
  show ((runFetch sinaResp (cbPre co cbResp) cfg).current).isSome = true
  rw [hv]
  rfl

/-- A well-formed item renders to a row. -/
theorem rowOf_isSome (item : StockItem)
    (h : item.is_error = false → (item.current_price).isSome = true) :
    ∃ row, rowOf item = some row := by
  unfold rowOf priceCell
  by_cases he : item.is_error = true
  · rw [if_pos he]
    exact ⟨_, rfl⟩
  · rw [if_neg he]
    have hsome := h (by simpa using he)
    cases hc : item.current_price with
    | none => rw [hc] at hsome; exact absurd hsome (by simp)
    | some c => exact ⟨_, rfl⟩

/-- An error item's row displays the literal error text. -/
theorem rowOf_error_text (item : StockItem) (he : item.is_error = true) :
    ∃ pre post, rowOf item = some (pre ++ errorCellText item ++ post) := by
  unfold rowOf priceCell
  rw [if_pos he]
  dsimp only
  refine ⟨"\n        <tr>\n            <td>".toList ++ item.name ++
    "</td>\n            <td>".toList ++ item.code ++
    "</td>\n            <td>".toList ++ fmtFixed item.target_price 4 ++
    "</td>\n            <td style=\"color: ".toList ++ "#e74c3c".toList ++
    "; font-weight: bold;\">".toList,
    "</td>\n            <td style=\"color: ".toList ++ (ratioCell item).2 ++
    "; font-weight: bold;\">".toList ++ (ratioCell item).1 ++
    "</td>\n            <td style=\"text-align: left;\">".toList ++ item.note ++
    "</td>\n        </tr>\n        ".toList, ?_⟩
  rw [Option.some.injEq]
  simp only [List.append_assoc]

theorem mapM_rowOf_length (l : List StockItem)
    (h : ∀ x ∈ l, ∃ row, rowOf x = some row) :
    ∃ rows, l.mapM rowOf = some rows ∧ rows.length = l.length := by
  induction l with
  | nil => exact ⟨[], rfl, rfl⟩
  | cons x t ih =>
    obtain ⟨row, hrow⟩ := h x (List.mem_cons_self x t)
    obtain ⟨rows, hrows, hlen⟩ := ih (fun y hy => h y (List.mem_cons_of_mem x hy))
    refine ⟨row :: rows, ?_, by simp [hlen]⟩
    rw [List.mapM_cons, hrow, hrows]
    rfl

/-- C8: errors are contained per target.  (1) The run always renders a
complete table: one header row plus exactly one row per configured target,
whatever the fetch outcomes (including every target failing); (2) each failed
row carries the literal error text; (3) one target's fetch result never
influences another target's evaluated record. -/
theorem C8_error_containment (configs : List TargetConfig) (sinaResp : PyStr → HttpResp)
    (co : Except PyStr (List PyStr)) (cbResp : HttpResp) :
    (∃ rows, tableRows (sortStep (runEval configs sinaResp (cbPre co cbResp))) = some rows ∧
      rows.length = configs.length + 1) ∧
    (∀ item ∈ sortStep (runEval configs sinaResp (cbPre co cbResp)),
      item.is_error = true →
        ∃ pre post, rowOf item = some (pre ++ errorCellText item ++ post)) ∧
    (∀ (f g : TargetConfig → QuoteResult) (i : ℕ) (cfg : TargetConfig),
      configs[i]? = some cfg → f cfg = g cfg →
      (evalAll configs f)[i]? = (evalAll configs g)[i]?) := by
  have hwf : ∀ item ∈ sortStep (runEval configs sinaResp (cbPre co cbResp)),
      item.is_error = false → (item.current_price).isSome = true := by
    intro item hmem
    have hperm := List.perm_insertionSort itemLE (runEval configs sinaResp (cbPre co cbResp))
    exact runEval_wellFormed configs sinaResp co cbResp item (hperm.mem_iff.mp hmem)
  refine ⟨?_, ?_, ?_⟩
  · obtain ⟨rows, hrows, hlen⟩ :=
      mapM_rowOf_length _ (fun x hx => rowOf_isSome x (hwf x hx))
    refine ⟨headerRow :: rows, ?_, ?_⟩
    · unfold tableRows
      rw [hrows]
      rfl
    · have hslen : (sortStep (runEval configs sinaResp (cbPre co cbResp))).length =
          configs.length := by
        unfold sortStep
        rw [(List.perm_insertionSort itemLE _).length_eq]
        unfold runEval evalAll
        rw [List.length_map, List.length_map]
      simp [hlen, hslen]
  · intro item hmem he
    exact rowOf_error_text item he
  · intro f g i cfg hcfg hfg
    unfold evalAll
    rw [List.map_map, List.map_map, List.getElem?_map, List.getElem?_map, hcfg]
    simp [hfg]

/-- Witness for C8: the concrete configuration with every fetch failing
still renders a complete five-row table (header + four targets). -/
theorem C8_error_containment_witness :
    ∃ rows,
      tableRows (sortStep (runEval ALL_TARGET_CONFIGS (fun _ => ⟨500, []⟩)
          (cbPre (.error "网络错误".toList) ⟨500, []⟩))) = some rows ∧
      rows.length = ALL_TARGET_CONFIGS.length + 1 :=
  (C8_error_containment ALL_TARGET_CONFIGS (fun _ => ⟨500, []⟩)
    (.error "网络错误".toList) ⟨500, []⟩).1

/-! ## Claim C7: notification-log round trip -/

theorem escBody_cons (c : Char) (s : PyStr) :
    escBody (c :: s) = escChar c ++ escBody s := rfl

theorem hexVal_hexDigitChar {n : ℕ} (hn : n < 16) :
    hexVal (hexDigitChar n) = some n := by
  interval_cases n <;> decide

theorem skipWs_cons_ws {c : Char} (hc : jsonWsChar c = true) (t : PyStr) :
    skipWs (c :: t) = skipWs t := by
  unfold skipWs
  rw [List.dropWhile_cons, if_pos hc]

theorem skipWs_cons_not {c : Char} (hc : jsonWsChar c = false) (t : PyStr) :
    skipWs (c :: t) = c :: t := by
  unfold skipWs
  rw [List.dropWhile_cons, if_neg (by rw [hc]; exact Bool.false_ne_true)]

theorem skipWs_append_ws {a : PyStr} (ha : ∀ c ∈ a, jsonWsChar c = true) (b : PyStr) :
    skipWs (a ++ b) = skipWs b := by
  induction a with
  | nil => rfl
  | cons c t ih =>
    rw [List.cons_append, skipWs_cons_ws (ha c (List.mem_cons_self c t))]
    exact ih (fun x hx => ha x (List.mem_cons_of_mem c hx))

/-- Decoding inverts the serializer's per-string escaping. -/
theorem parseStringBody_escBody (s : PyStr) :
    ∀ rest, parseStringBody (escBody s ++ '"' :: rest) = some (s, rest) := by
  induction s with
  | nil =>
    intro rest
    show parseStringBody ('"' :: rest) = some ([], rest)
    rw [parseStringBody.eq_def]
    simp
  | cons c s ih =>
    intro rest
    rw [escBody_cons, List.append_assoc]
    by_cases h1 : c = '\\'
    · subst h1
      show parseStringBody ('\\' :: '\\' :: (escBody s ++ '"' :: rest)) = _
      rw [parseStringBody.eq_def]
      simp [escDecode, ih]
    · by_cases h2 : c = '"'
      · subst h2
        show parseStringBody ('\\' :: '"' :: (escBody s ++ '"' :: rest)) = _
        rw [parseStringBody.eq_def]
        simp [escDecode, ih]
      · by_cases h3 : c = '\x08'
        · subst h3
          show parseStringBody ('\\' :: 'b' :: (escBody s ++ '"' :: rest)) = _
          rw [parseStringBody.eq_def]
          simp [escDecode, ih]
        · by_cases h4 : c = '\x0c'
          · subst h4
            show parseStringBody ('\\' :: 'f' :: (escBody s ++ '"' :: rest)) = _
            rw [parseStringBody.eq_def]
            simp [escDecode, ih]
          · by_cases h5 : c = '\n'
            · subst h5
              show parseStringBody ('\\' :: 'n' :: (escBody s ++ '"' :: rest)) = _
              rw [parseStringBody.eq_def]
              simp [escDecode, ih]
            · by_cases h6 : c = '\r'
              · subst h6
                show parseStringBody ('\\' :: 'r' :: (escBody s ++ '"' :: rest)) = _
                rw [parseStringBody.eq_def]
                simp [escDecode, ih]
              · by_cases h7 : c = '\t'
                · subst h7
                  show parseStringBody ('\\' :: 't' :: (escBody s ++ '"' :: rest)) = _
                  rw [parseStringBody.eq_def]
                  simp [escDecode, ih]
                · by_cases h8 : c.toNat < 32
                  · rw [show escChar c =
                        ['\\', 'u', '0', '0', hexDigitChar (c.toNat / 16),
                          hexDigitChar (c.toNat % 16)] from by
                      unfold escChar
                      rw [if_neg h1, if_neg h2, if_neg h3, if_neg h4, if_neg h5,
                        if_neg h6, if_neg h7, if_pos h8]]
                    show parseStringBody ('\\' :: 'u' :: '0' :: '0' ::
                      hexDigitChar (c.toNat / 16) :: hexDigitChar (c.toNat % 16) ::
                      (escBody s ++ '"' :: rest)) = _
                    have hdiv : hexVal (hexDigitChar (c.toNat / 16)) =
                        some (c.toNat / 16) :=
                      hexVal_hexDigitChar (by omega)
                    have hmod : hexVal (hexDigitChar (c.toNat % 16)) =
                        some (c.toNat % 16) :=
                      hexVal_hexDigitChar (by omega)
                    rw [parseStringBody.eq_def]
                    simp [show hexVal '0' = some 0 from by decide, hdiv, hmod, ih,
                      Nat.div_add_mod, Char.ofNat_toNat]
                  · rw [show escChar c = [c] from by
                      unfold escChar
                      rw [if_neg h1, if_neg h2, if_neg h3, if_neg h4, if_neg h5,
                        if_neg h6, if_neg h7, if_neg h8]]
                    show parseStringBody (c :: (escBody s ++ '"' :: rest)) = _
                    rw [parseStringBody.eq_def]
                    simp [h1, h2, h8, ih]

/-- Parsing the serialized string value after the `": "` separator. -/
theorem parseJsonValue_str (g : ℕ) (v X : PyStr) :
    parseJsonValue (g + 1) (' ' :: ('"' :: (escBody v ++ ('"' :: X)))) =
      some (Json.str v, X) := by
  rw [parseJsonValue.eq_def]
  simp [skipWs_cons_ws (show jsonWsChar ' ' = true from by decide),
    skipWs_cons_not (show jsonWsChar '"' = false from by decide),
    parseStringBody_escBody]

/-- Parsing one serialized member, given in the exposed key-first form. -/
theorem parseObjMembers_step (g : ℕ) (k v X : PyStr) :
    parseObjMembers (g + 2)
        ('"' :: (escBody k ++ ('"' :: (':' :: (' ' :: ('"' :: (escBody v ++
          ('"' :: X)))))))) =
      (match skipWs X with
       | [] => none
       | c3 :: r4 =>
         if c3 = ',' then
           match parseObjMembers (g + 1) (skipWs r4) with
           | none => none
           | some (ms, r5) => some ((k, Json.str v) :: ms, r5)
         else if c3 = '}' then some ([(k, Json.str v)], r4)
         else none) := by
  rw [show g + 2 = (g + 1) + 1 from rfl, parseObjMembers.eq_def]
  simp [parseStringBody_escBody, parseJsonValue_str,
    skipWs_cons_not (show jsonWsChar ':' = false from by decide)]

/-- The serialized text of a one-member log, after whitespace skipping. -/
theorem skipWs_joinMembers_single (k v : PyStr) (tail : PyStr) :
    skipWs (joinMembers [(k, v)] ++ tail) =
      '"' :: (escBody k ++ ('"' :: (':' :: (' ' :: ('"' :: (escBody v ++
        ('"' :: tail))))))) := by
  have h1 : joinMembers [(k, v)] ++ tail =
      "    ".toList ++ ('"' :: (escBody k ++ ('"' :: (':' :: (' ' :: ('"' ::
        (escBody v ++ ('"' :: tail)))))))) := by
    show ("    ".toList ++ encodeStr k ++ ": ".toList ++ encodeStr v) ++ tail = _
    rw [show (": ".toList : PyStr) = ':' :: ' ' :: [] from rfl]
    unfold encodeStr
    simp [List.append_assoc]
  rw [h1, skipWs_append_ws (by decide), skipWs_cons_not (by decide)]

/-- The serialized text of a multi-member log, after whitespace skipping. -/
theorem skipWs_joinMembers_cons (k v : PyStr) (kv2 : PyStr × PyStr)
    (t2 : List (PyStr × PyStr)) (tail : PyStr) :
    skipWs (joinMembers ((k, v) :: kv2 :: t2) ++ tail) =
      '"' :: (escBody k ++ ('"' :: (':' :: (' ' :: ('"' :: (escBody v ++
        ('"' :: (',' :: '\n' :: (joinMembers (kv2 :: t2) ++ tail))))))))) := by
  have h1 : joinMembers ((k, v) :: kv2 :: t2) ++ tail =
      "    ".toList ++ ('"' :: (escBody k ++ ('"' :: (':' :: (' ' :: ('"' ::
        (escBody v ++ ('"' :: (',' :: '\n' ::
          (joinMembers (kv2 :: t2) ++ tail)))))))))) := by
    show (("    ".toList ++ encodeStr k ++ ": ".toList ++ encodeStr v) ++
        ',' :: '\n' :: joinMembers (kv2 :: t2)) ++ tail = _
    rw [show (": ".toList : PyStr) = ':' :: ' ' :: [] from rfl]
    unfold encodeStr
    simp [List.append_assoc]
  rw [h1, skipWs_append_ws (by decide), skipWs_cons_not (by decide)]

/-- Parsing inverts serialization on the member list of a non-empty log. -/
theorem parseObjMembers_render (l : List (PyStr × PyStr)) :
    ∀ (fuel : ℕ) (rest : PyStr), l ≠ [] → l.length + 2 ≤ fuel →
      parseObjMembers fuel (skipWs (joinMembers l ++ '\n' :: '}' :: rest)) =
        some (l.map (fun kv => (kv.1, Json.str kv.2)), rest) := by
  induction l with
  | nil =>
    intro fuel rest h _
    exact absurd rfl h
  | cons kv t ih =>
    intro fuel rest _ hlen
    obtain ⟨k, v⟩ := kv
    obtain ⟨g, rfl⟩ : ∃ g, fuel = g + 2 := ⟨fuel - 2, by omega⟩
    cases t with
    | nil =>
      rw [skipWs_joinMembers_single, parseObjMembers_step]
      rw [skipWs_cons_ws (by decide), skipWs_cons_not (by decide)]
      simp
    | cons kv2 t2 =>
      rw [skipWs_joinMembers_cons, parseObjMembers_step]
      rw [skipWs_cons_not (show jsonWsChar ',' = false from by decide)]
      obtain ⟨g', rfl⟩ : ∃ g', g = g' + 1 := by
        refine ⟨g - 1, ?_⟩
        have : (kv2 :: t2).length + 1 + 2 ≤ g + 2 := by
          simpa using hlen
        omega
      simp [skipWs_cons_ws (show jsonWsChar '\n' = true from by decide),
        ih (g' + 2) rest (by simp) (by simp at hlen ⊢; omega)]

theorem renderMember_length (kv : PyStr × PyStr) : 1 ≤ (renderMember kv).length := by
  have h4 : (("    ".toList : PyStr)).length = 4 := by decide
  unfold renderMember
  rw [List.length_append, List.length_append, List.length_append, h4]
  omega

theorem joinMembers_length (l : List (PyStr × PyStr)) :
    l.length ≤ (joinMembers l).length := by
  induction l with
  | nil => simp [joinMembers]
  | cons kv t ih =>
    cases t with
    | nil =>
      have h := renderMember_length kv
      show [kv].length ≤ (renderMember kv).length
      simpa using h
    | cons kv2 t2 =>
      have h := renderMember_length kv
      show (kv :: kv2 :: t2).length ≤
        (renderMember kv ++ ',' :: '\n' :: joinMembers (kv2 :: t2)).length
      rw [List.length_append]
      simp only [List.length_cons] at ih ⊢
      omega

/-- The serialized member list starts with a key's opening quote. -/
theorem skipWs_joinMembers_head (kv : PyStr × PyStr) (t : List (PyStr × PyStr))
    (tail : PyStr) :
    ∃ R, skipWs (joinMembers (kv :: t) ++ tail) = '"' :: R := by
  obtain ⟨k, v⟩ := kv
  cases t with
  | nil => exact ⟨_, skipWs_joinMembers_single k v tail⟩
  | cons kv2 t2 => exact ⟨_, skipWs_joinMembers_cons k v kv2 t2 tail⟩

/-- Parsing a whole serialized non-empty log document. -/
theorem parseJsonValue_objText (kv : PyStr × PyStr) (t : List (PyStr × PyStr))
    (fuel : ℕ) (hfuel : (kv :: t).length + 2 ≤ fuel) :
    parseJsonValue (fuel + 1)
        ('{' :: '\n' :: (joinMembers (kv :: t) ++ '\n' :: '}' :: [])) =
      some (logToJson (kv :: t), []) := by
  obtain ⟨R, hR⟩ := skipWs_joinMembers_head kv t ('\n' :: '}' :: [])
  have hrender := parseObjMembers_render (kv :: t) fuel [] (by simp) hfuel
  rw [hR] at hrender
  rw [parseJsonValue.eq_def]
  simp [skipWs_cons_not (show jsonWsChar '{' = false from by decide),
    skipWs_cons_ws (show jsonWsChar '\n' = true from by decide), hR, hrender, logToJson]

/-- Round trip: `json.load` inverts `json.dump` on the notification log text. -/
theorem jsonParse_save (l : List (PyStr × PyStr)) :
    jsonParse (save_notification_log l) = some (logToJson l) := by
  cases l with
  | nil => rfl
  | cons kv t =>
    unfold jsonParse
    rw [show save_notification_log (kv :: t) =
      '{' :: '\n' :: (joinMembers (kv :: t) ++ '\n' :: '}' :: []) from rfl]
    rw [parseJsonValue_objText kv t _ ?hf]
    · simp [skipWs]
    case hf =>
      have hj := joinMembers_length (kv :: t)
      simp only [List.length_cons, List.length_append] at hj ⊢
      omega

/-- C7: saving any string-to-string notification log and re-loading it
yields exactly the original mapping (as the JSON object with the same keys,
in order, bound to the same date strings). -/
theorem C7_log_round_trip (log_data : List (PyStr × PyStr))
    (hkeys : (log_data.map Prod.fst).Nodup) :
    load_notification_log (.content (save_notification_log log_data)) =
      logToJson log_data := by
  simp only [load_notification_log, jsonParse_save]

/-- Witness for C7 at a concrete one-entry log. -/
theorem C7_log_round_trip_witness :
    load_notification_log (.content (save_notification_log
        [("SSEC".toList, "2025-01-01".toList)])) =
      logToJson [("SSEC".toList, "2025-01-01".toList)] :=
  C7_log_round_trip [("SSEC".toList, "2025-01-01".toList)] (by decide)

/-- Witness for C10: an `fx_` code whose response has four fields goes
through the equity layout (price 7.15 from `parts[3]`, open 7.0 from
`parts[1]`, previous close 7.2 from `parts[2]`). -/
theorem C10_fx_fallback_dead_witness :
    get_data_sina "fx_susdcny".toList fxRespW =
      .ok (some (143 / 20)) (some 7) (some (36 / 5)) none := by
  have h :=
    (C10_fx_fallback_dead "fx_susdcny".toList fxRespW).2.2 (by decide) rfl (by decide)
      (by decide) (by decide) 7 (36 / 5) (by with_unfolding_all decide)
      (by with_unfolding_all decide)
  exact h.trans (by with_unfolding_all decide)

end HS
